import Mathlib

/-!
Verification of the seeded Codenames grid generator
(`src/components/CodenamesGrid.tsx`).

The TypeScript core is shallowly embedded below.  JavaScript 32-bit
integer arithmetic (`Math.imul`, `^`, `>>>`, `|`) is modelled on `Nat`
with explicit reduction modulo `2 ^ 32`; this is bit-exact because every
JavaScript bitwise operator reinterprets its operands modulo `2 ^ 32`,
and the `t += k` / `r + q` double additions stay exact for all call
counts arising from list lengths below `2 ^ 21`.  `String.charCodeAt` is
modelled by UTF-16 code units.  The mutable arrays of the source become
lists passed explicitly; `undefined` entries of the side-B result array
become `Option.none`.
-/

namespace Codenames

/-- The cell colors of the source: `"green"` (GOOD), `"black"` (BAD),
`"yellow"` (NEUTRAL). -/
inductive CellColor where
  | yellow
  | green
  | black
deriving DecidableEq, Repr

/-- The side selector of the source (`type Side = "A" | "B"`). -/
inductive Side where
  | A
  | B
deriving DecidableEq, Repr

/-- `clamp(value, min, max) = Math.max(min, Math.min(max, value))`. -/
def clamp (value lo hi : Int) : Int :=
  max lo (min hi value)

/-- UTF-16 code units of one character, as produced by
`String.prototype.charCodeAt`. -/
def charUtf16 (c : Char) : List Nat :=
  let v := c.toNat
  if v < 65536 then [v]
  else [55296 + (v - 65536) / 1024, 56320 + (v - 65536) % 1024]

/-- The UTF-16 code-unit sequence of a string. -/
def utf16Units (s : String) : List Nat :=
  s.data.flatMap charUtf16

/-- `xfnv1a`: the FNV-1a style string hash of the source.
`h = 2166136261; for each unit: h ^= unit; h = Math.imul(h, 16777619);
return h >>> 0`. -/
def xfnv1a (s : String) : Nat :=
  (utf16Units s).foldl (fun h u => (Nat.xor h u) * 16777619 % 4294967296) 2166136261

/-- One step of the `mulberry32` generator: given the stored state `t`,
returns the new state and the raw 32-bit output word (the source divides
the word by `2 ^ 32` to obtain a float in `[0, 1)`). -/
def mulberryStep (t : Nat) : Nat × Nat :=
  let t' := (t + 1831565813) % 4294967296
  let r1 := (Nat.xor t' (t' / 32768)) * (Nat.lor t' 1) % 4294967296
  let r2 := Nat.xor r1 ((r1 + (Nat.xor r1 (r1 / 128)) * (Nat.lor r1 61) % 4294967296) % 4294967296)
  (t', Nat.xor r2 (r2 / 16384))

/-- `seedToRng`: hash the seed (empty text falls back to `"default"`)
into the initial mulberry32 state. -/
def seedToRng (seed : String) : Nat :=
  xfnv1a (if seed = "" then "default" else seed)

/-- Exchange the entries at positions `i` and `j`
(`[result[i], result[j]] = [result[j], result[i]]`). -/
def listSwap (l : List α) (i j : Nat) : List α :=
  match l[i]?, l[j]? with
  | some a, some b => (l.set i b).set j a
  | _, _ => l

/-- The Fisher–Yates loop of `shuffleArraySeeded`, indices
`i, i-1, …, 1`; each step draws `j = Math.floor(rnd() * (i + 1))`. -/
def shuffleGo (l : List α) (st : Nat) : Nat → List α
  | 0 => l
  | i + 1 =>
    let s := mulberryStep st
    let j := s.2 * (i + 2) / 4294967296
    shuffleGo (listSwap l (i + 1) j) s.1 i

/-- `shuffleArraySeeded`: Fisher–Yates shuffle of a copy of the input,
driven by a mulberry32 stream started at `st`. -/
def shuffleArraySeeded (l : List α) (st : Nat) : List α :=
  shuffleGo l st (l.length - 1)

/-- `generateSideA`: clamp the requested counts, lay out
GOOD/BAD/NEUTRAL blocks, and shuffle with the rng seeded from
`seed + "|A"`. -/
def generateSideA (numGood numBad : Int) (totalCells : Nat) (seed : String) : List CellColor :=
  let clampedGood := (clamp numGood 0 (totalCells : Int)).toNat
  let clampedBad := (clamp numBad 0 ((totalCells : Int) - (clampedGood : Int))).toNat
  let numNeutral := totalCells - clampedGood - clampedBad
  let cells := List.replicate clampedGood CellColor.green
    ++ List.replicate clampedBad CellColor.black
    ++ List.replicate numNeutral CellColor.yellow
  shuffleArraySeeded cells (seedToRng (seed ++ "|A"))

/-- Index/value pairs `(k, l[0]), (k+1, l[1]), …`, as traversed by the
source's indexed `for` loops over `base`. -/
def enumList (k : Nat) : List α → List (Nat × α)
  | [] => []
  | x :: xs => (k, x) :: enumList (k + 1) xs

/-- One draw of the non-pinned GOOD loop:
`takeIdx = pool.findIndex(c => c !== "green"); if -1 then 0;
item = pool.splice(takeIdx, 1)[0]`.  Returns the taken item (`none`
when the pool is empty) and the remaining pool. -/
def takeNonGreen (pool : List CellColor) : Option CellColor × List CellColor :=
  let takeIdx :=
    match pool.findIdx? (fun c => c != CellColor.green) with
    | some k => k
    | none => 0
  (pool[takeIdx]?, pool.eraseIdx takeIdx)

/-- The loop over `base` assigning every non-pinned side-A GOOD
position from the pool (lines 120–127 of the source). -/
def assignGoods : List (Nat × CellColor) → List Nat → List (Option CellColor) → List CellColor →
    List (Option CellColor) × List CellColor
  | [], _, res, pool => (res, pool)
  | (i, c) :: rest, pinned, res, pool =>
    if c = CellColor.green ∧ i ∉ pinned then
      let t := takeNonGreen pool
      assignGoods rest pinned (res.set i t.1) t.2
    else
      assignGoods rest pinned res pool

/-- The pin loop (lines 111–115): mark each pinned position GOOD and
remove one GOOD entry from the pool. -/
def pinLoop : List Nat → List (Option CellColor) → List CellColor →
    List (Option CellColor) × List CellColor
  | [], res, pool => (res, pool)
  | i :: rest, res, pool =>
    pinLoop rest (res.set i (some CellColor.green)) (pool.erase CellColor.green)

/-- The final fill loop (lines 132–137) with an explicit defensive
default `d`: every still-`undefined` position takes the front of the
pool, or `d` when the pool is exhausted. -/
def fillRemainingWith (d : CellColor) : List (Option CellColor) → List CellColor → List CellColor
  | [], _ => []
  | some c :: rest, pool => c :: fillRemainingWith d rest pool
  | none :: rest, [] => d :: fillRemainingWith d rest []
  | none :: rest, p :: ps => p :: fillRemainingWith d rest ps

/-- The final fill loop exactly as in the source, whose defensive
default is `"yellow"` (`result[i] = (item ?? "yellow")`). -/
def fillRemaining : List (Option CellColor) → List CellColor → List CellColor :=
  fillRemainingWith CellColor.yellow

/-- The pinned GOOD positions of side B: shuffle side A's GOOD indices
with the rng seeded from `seed + "|pins"` and keep the first
`pinsToSelect = Math.min(3, greenIndices.length)` of them. -/
def pinnedIndicesOf (numGood numBad : Int) (totalCells : Nat) (seed : String) : List Nat :=
  let base := generateSideA numGood numBad totalCells seed
  let greenIndices := ((enumList 0 base).filter (fun p => p.2 == CellColor.green)).map Prod.fst
  let pinsToSelect := min 3 greenIndices.length
  (shuffleArraySeeded greenIndices (seedToRng (seed ++ "|pins"))).take pinsToSelect

/-- Lines 97–130 of `generateSideB`: everything before the final fill
loop.  Returns the partially built result array (`none` = undefined)
and the re-shuffled leftover pool. -/
def sideBParts (numGood numBad : Int) (totalCells : Nat) (seed : String) :
    List (Option CellColor) × List CellColor :=
  let base := generateSideA numGood numBad totalCells seed
  let pinned := pinnedIndicesOf numGood numBad totalCells seed
  let step1 := pinLoop pinned (List.replicate totalCells none) base
  let pool2 := shuffleArraySeeded step1.2 (seedToRng (seed ++ "|pool1"))
  let step2 := assignGoods (enumList 0 base) pinned step1.1 pool2
  let pool4 := shuffleArraySeeded step2.2 (seedToRng (seed ++ "|pool2"))
  (step2.1, pool4)

/-- `generateSideB`: derive the correlated side-B grid from side A. -/
def generateSideB (numGood numBad : Int) (totalCells : Nat) (seed : String) : List CellColor :=
  let parts := sideBParts numGood numBad totalCells seed
  fillRemaining parts.1 parts.2

/-- `generateGrid`: dispatch on the side selector. -/
def generateGrid (numGood numBad : Int) (totalCells : Nat) (seed : String) (side : Side) :
    List CellColor :=
  match side with
  | Side.B => generateSideB numGood numBad totalCells seed
  | Side.A => generateSideA numGood numBad totalCells seed

/-- Number of positions that are GOOD in both grids. -/
def overlapCount (gridA gridB : List CellColor) : Nat :=
  (gridA.zip gridB).countP (fun p => p.1 == CellColor.green && p.2 == CellColor.green)

/-- Invariant relating an index/color pair of side A to the
corresponding result entry after the pin loop: pinned positions hold
GOOD (and were GOOD on side A), everything else is still undefined. -/
def pinnedPre (pinned : List Nat) (p : Nat × CellColor) (r : Option CellColor) : Prop :=
  if p.1 ∈ pinned then p.2 = CellColor.green ∧ r = some CellColor.green else r = none

/-- Invariant relating an index/color pair of side A to the
corresponding result entry after the non-pinned GOOD loop. -/
def pinnedPost (pinned : List Nat) (p : Nat × CellColor) (r : Option CellColor) : Prop :=
  (p.1 ∈ pinned → p.2 = CellColor.green ∧ r = some CellColor.green) ∧
  (r = some CellColor.green → p.2 = CellColor.green) ∧
  (r = none → p.2 ≠ CellColor.green)

/-- The boolean guard of the non-pinned GOOD loop: the position was
GOOD on side A and is not pinned. -/
def activeB (pinned : List Nat) (p : Nat × CellColor) : Bool :=
  !(decide (p.1 ∈ pinned)) && (p.2 == CellColor.green)

/-- A generation configuration as fed to the configuration digest
(everything but the side selector). -/
structure DigestConfig where
  gridSize : Int
  numGood : Int
  numBad : Int
  overlapGreens : Int
  seed : String
deriving DecidableEq, Repr

/-- One digest letter: `'A'` plus `value mod 26`. -/
def digestLetter (v : Nat) : Char :=
  Char.ofNat (65 + v % 26)

/-- Modelled from the spec: `configDigest` is absent from `src/`
(no function in the repository computes a configuration digest), so it
is modelled from §4.5 of the spec: concatenate
`gridSize|numGood|numBad|overlapGreens|seed` with literal pipe
separators, hash with the §4.1 string hash (`xfnv1a`), and extract
three letters in `'A'..'Z'` by repeated mod-26 / div-26 steps. -/
def configDigest (c : DigestConfig) : String :=
  let h := xfnv1a (toString c.gridSize ++ "|" ++ toString c.numGood ++ "|" ++ toString c.numBad
    ++ "|" ++ toString c.overlapGreens ++ "|" ++ c.seed)
  String.mk [digestLetter h, digestLetter (h / 26), digestLetter (h / 26 / 26)]

/-! ## Generic list lemmas: `set`, `eraseIdx`, swapping, shuffling -/

theorem countP_set_aux (p : α → Bool) (l : List α) :
    ∀ (i : Nat) (v : α) (h : i < l.length),
      (l.set i v).countP p + (if p l[i] then 1 else 0) = l.countP p + (if p v then 1 else 0) := by
  induction l with
  | nil => intro i v h; simp at h
  | cons a t ih =>
    intro i v h
    cases i with
    | zero => simp [List.countP_cons]; omega
    | succ i =>
      have h' : i < t.length := by simpa using h
      have := ih i v h'
      simp only [List.set_cons_succ, List.countP_cons, List.getElem_cons_succ]
      omega

theorem count_set_aux [BEq α] [LawfulBEq α] (l : List α) (i : Nat) (v x : α) (h : i < l.length) :
    (l.set i v).count x + (if l[i] == x then 1 else 0) = l.count x + (if v == x then 1 else 0) :=
  countP_set_aux (fun a => a == x) l i v h

theorem countP_eraseIdx_aux (p : α → Bool) (l : List α) :
    ∀ (k : Nat) (h : k < l.length),
      (l.eraseIdx k).countP p + (if p l[k] then 1 else 0) = l.countP p := by
  induction l with
  | nil => intro k h; simp at h
  | cons a t ih =>
    intro k h
    cases k with
    | zero => simp [List.countP_cons]
    | succ k =>
      have h' : k < t.length := by simpa using h
      have := ih k h'
      simp only [List.eraseIdx_cons_succ, List.countP_cons, List.getElem_cons_succ]
      omega

theorem count_eraseIdx_aux [BEq α] [LawfulBEq α] (l : List α) (k : Nat) (x : α) (h : k < l.length) :
    (l.eraseIdx k).count x + (if l[k] == x then 1 else 0) = l.count x :=
  countP_eraseIdx_aux (fun a => a == x) l k h

theorem countP_not_aux (p : α → Bool) (l : List α) :
    l.countP p + l.countP (fun a => !(p a)) = l.length := by
  induction l with
  | nil => rfl
  | cons a t ih =>
    simp only [List.countP_cons, List.length_cons]
    cases h : p a <;> simp [h] <;> omega

theorem listSwap_perm [DecidableEq α] (l : List α) (i j : Nat) :
    List.Perm (listSwap l i j) l := by
  unfold listSwap
  cases hi : l[i]? with
  | none => cases l[j]? <;> exact List.Perm.refl l
  | some a =>
    cases hj : l[j]? with
    | none => exact List.Perm.refl l
    | some b =>
      obtain ⟨hi', hia⟩ := List.getElem?_eq_some_iff.mp hi
      obtain ⟨hj', hjb⟩ := List.getElem?_eq_some_iff.mp hj
      show List.Perm ((l.set i b).set j a) l
      rw [List.perm_iff_count]
      intro x
      have hj'' : j < (l.set i b).length := by simpa using hj'
      have h1 := count_set_aux l i b x hi'
      have h2 := count_set_aux (l.set i b) j a x hj''
      have hbj : (l.set i b)[j] = b := by
        by_cases hij : i = j
        · subst hij; simp
        · rw [List.getElem_set_ne hij]; exact hjb
      rw [hbj] at h2
      rw [hia] at h1
      split_ifs at h1 h2 <;> omega

theorem shuffleGo_perm [DecidableEq α] :
    ∀ (fuel : Nat) (l : List α) (st : Nat), List.Perm (shuffleGo l st fuel) l := by
  intro fuel
  induction fuel with
  | zero => intro l st; exact List.Perm.refl l
  | succ i ih =>
    intro l st
    exact List.Perm.trans (ih _ _) (listSwap_perm l (i + 1) _)

theorem shuffleArraySeeded_perm [DecidableEq α] (l : List α) (st : Nat) :
    List.Perm (shuffleArraySeeded l st) l :=
  shuffleGo_perm _ l st

theorem shuffleArraySeeded_length [DecidableEq α] (l : List α) (st : Nat) :
    (shuffleArraySeeded l st).length = l.length :=
  (shuffleArraySeeded_perm l st).length_eq

theorem shuffleArraySeeded_count [DecidableEq α] (l : List α) (st : Nat) (x : α) :
    (shuffleArraySeeded l st).count x = l.count x :=
  (shuffleArraySeeded_perm l st).count_eq x

theorem shuffleArraySeeded_countP [DecidableEq α] (l : List α) (st : Nat) (p : α → Bool) :
    (shuffleArraySeeded l st).countP p = l.countP p :=
  (shuffleArraySeeded_perm l st).countP_eq p

theorem shuffleArraySeeded_nodup [DecidableEq α] (l : List α) (st : Nat) (h : l.Nodup) :
    (shuffleArraySeeded l st).Nodup :=
  ((shuffleArraySeeded_perm l st).symm.nodup h)

theorem shuffleArraySeeded_mem [DecidableEq α] (l : List α) (st : Nat) (x : α) :
    x ∈ shuffleArraySeeded l st ↔ x ∈ l :=
  (shuffleArraySeeded_perm l st).mem_iff

/-! ## Lemmas about `enumList` -/

theorem enumList_length (l : List α) : ∀ k : Nat, (enumList k l).length = l.length := by
  induction l with
  | nil => intro k; rfl
  | cons x xs ih => intro k; simp [enumList, ih]

theorem enumList_map_snd (l : List α) : ∀ k : Nat, (enumList k l).map Prod.snd = l := by
  induction l with
  | nil => intro k; rfl
  | cons x xs ih => intro k; simp [enumList, ih]

theorem mem_enumList (l : List α) : ∀ (k : Nat) (p : Nat × α), p ∈ enumList k l →
    k ≤ p.1 ∧ l[p.1 - k]? = some p.2 := by
  induction l with
  | nil => intro k p h; simp [enumList] at h
  | cons x xs ih =>
    intro k p h
    rw [enumList, List.mem_cons] at h
    cases h with
    | inl h => subst h; simp
    | inr h =>
      obtain ⟨h1, h2⟩ := ih (k + 1) p h
      refine ⟨by omega, ?_⟩
      have hd : p.1 - k = (p.1 - (k + 1)) + 1 := by omega
      rw [hd, List.getElem?_cons_succ]
      exact h2

theorem forall2_enum_intro (P : Nat × α → β → Prop) :
    ∀ (l : List α) (k : Nat) (r : List β), r.length = l.length →
      (∀ (j : Nat) (hj : j < l.length) (hr : j < r.length), P (k + j, l[j]) r[j]) →
      List.Forall₂ P (enumList k l) r := by
  intro l
  induction l with
  | nil =>
    intro k r hlen _
    have : r = [] := List.length_eq_zero.mp hlen
    subst this
    exact List.Forall₂.nil
  | cons x xs ih =>
    intro k r hlen hP
    cases r with
    | nil => simp at hlen
    | cons b rs =>
      have hlen' : rs.length = xs.length := by simpa using hlen
      refine List.Forall₂.cons ?_ (ih (k + 1) rs hlen' ?_)
      · have := hP 0 (by simp) (by simp)
        simpa using this
      · intro j hj hr
        have := hP (j + 1) (by simpa using Nat.succ_lt_succ hj) (by simpa using Nat.succ_lt_succ hr)
        have harith : k + (j + 1) = k + 1 + j := by omega
        rw [harith] at this
        simpa using this

theorem forall2_enum_elim (P : Nat × α → β → Prop) :
    ∀ (l : List α) (k : Nat) (r : List β), List.Forall₂ P (enumList k l) r →
      ∀ (j : Nat) (hj : j < l.length) (hr : j < r.length), P (k + j, l[j]) r[j] := by
  intro l
  induction l with
  | nil => intro k r _ j hj _; simp at hj
  | cons x xs ih =>
    intro k r h j hj hr
    rw [enumList] at h
    cases h with
    | cons hab htl =>
      cases j with
      | zero => simpa using hab
      | succ j =>
        have := ih (k + 1) _ htl j (by simpa using Nat.lt_of_succ_lt_succ hj)
          (by simpa using Nat.lt_of_succ_lt_succ hr)
        have harith : k + 1 + j = k + (j + 1) := by omega
        rw [harith] at this
        simpa using this

theorem forall2_flip_enum (P : Nat × α → β → Prop) (Q : β → α → Prop)
    (hPQ : ∀ p x, P p x → Q x p.2) :
    ∀ (l : List α) (k : Nat) (r : List β), List.Forall₂ P (enumList k l) r →
      List.Forall₂ Q r l := by
  intro l
  induction l with
  | nil =>
    intro k r h
    rw [enumList] at h
    cases h
    exact List.Forall₂.nil
  | cons x xs ih =>
    intro k r h
    rw [enumList] at h
    cases h with
    | cons hab htl => exact List.Forall₂.cons (hPQ _ _ hab) (ih (k + 1) _ htl)

/-! ## Lemmas about the final fill loop -/

theorem fillRemainingWith_length (d : CellColor) :
    ∀ (res : List (Option CellColor)) (pool : List CellColor),
      (fillRemainingWith d res pool).length = res.length := by
  intro res
  induction res with
  | nil => intro pool; rfl
  | cons r rest ih =>
    intro pool
    cases r with
    | some c => simp [fillRemainingWith, ih]
    | none => cases pool <;> simp [fillRemainingWith, ih]

theorem fillRemainingWith_count (d : CellColor) :
    ∀ (res : List (Option CellColor)) (pool : List CellColor),
      res.count none = pool.length →
      ∀ x, (fillRemainingWith d res pool).count x = res.count (some x) + pool.count x := by
  intro res
  induction res with
  | nil =>
    intro pool h x
    have : pool = [] := List.length_eq_zero.mp (by simpa using h.symm)
    subst this
    rfl
  | cons r rest ih =>
    intro pool h x
    cases r with
    | some c =>
      have h' : rest.count none = pool.length := by
        simpa [List.count_cons] using h
      have := ih pool h' x
      simp only [fillRemainingWith, List.count_cons, this]
      by_cases hc : c = x <;> simp [hc]
      omega
    | none =>
      cases pool with
      | nil => simp [List.count_cons] at h
      | cons p ps =>
        have h' : rest.count none = ps.length := by
          simp only [List.count_cons, List.length_cons] at h
          simpa using h
        have := ih ps h' x
        simp only [fillRemainingWith, List.count_cons, this]
        by_cases hp : p = x <;> simp [hp]
        omega

theorem fillRemainingWith_default_irrelevant (d : CellColor) :
    ∀ (res : List (Option CellColor)) (pool : List CellColor),
      res.count none = pool.length → fillRemainingWith d res pool = fillRemaining res pool := by
  intro res
  induction res with
  | nil => intro pool _; rfl
  | cons r rest ih =>
    intro pool h
    cases r with
    | some c =>
      have h' : rest.count none = pool.length := by simpa [List.count_cons] using h
      simp [fillRemainingWith, fillRemaining] at ih ⊢
      exact ih pool h'
    | none =>
      cases pool with
      | nil => simp [List.count_cons] at h
      | cons p ps =>
        have h' : rest.count none = ps.length := by
          simp only [List.count_cons, List.length_cons] at h
          simpa using h
        simp [fillRemainingWith, fillRemaining] at ih ⊢
        exact ih ps h'

theorem fillRemainingWith_getElem (d : CellColor) :
    ∀ (res : List (Option CellColor)) (pool : List CellColor) (i : Nat) (c : CellColor),
      res[i]? = some (some c) → (fillRemainingWith d res pool)[i]? = some c := by
  intro res
  induction res with
  | nil => intro pool i c h; simp at h
  | cons r rest ih =>
    intro pool i c h
    cases i with
    | zero =>
      have : r = some c := by simpa using h
      subst this
      simp [fillRemainingWith]
    | succ i =>
      have h' : rest[i]? = some (some c) := by simpa using h
      cases r with
      | some c' => simpa [fillRemainingWith] using ih pool i c h'
      | none =>
        cases pool with
        | nil => simpa [fillRemainingWith] using ih [] i c h'
        | cons p ps => simpa [fillRemainingWith] using ih ps i c h'

theorem fillRemainingWith_overlap (d : CellColor) :
    ∀ (res : List (Option CellColor)) (baseL : List CellColor) (pool : List CellColor),
      List.Forall₂ (fun r a => (r = some CellColor.green → a = CellColor.green) ∧
        (r = none → a ≠ CellColor.green)) res baseL →
      (baseL.zip (fillRemainingWith d res pool)).countP
          (fun p => p.1 == CellColor.green && p.2 == CellColor.green)
        = res.count (some CellColor.green) := by
  intro res
  induction res with
  | nil =>
    intro baseL pool h
    cases h
    rfl
  | cons r rest ih =>
    intro baseL pool h
    cases h with
    | cons hab htl =>
      rename_i a as
      cases r with
      | some c =>
        have hrec := ih as pool htl
        by_cases hc : c = CellColor.green
        · subst hc
          have ha : a = CellColor.green := hab.1 rfl
          subst ha
          simp [fillRemainingWith, List.zip_cons_cons, List.countP_cons, List.count_cons, hrec]
        · simp only [fillRemainingWith, List.zip_cons_cons, List.countP_cons, List.count_cons,
            hrec]
          have h1 : (a == CellColor.green && (c == CellColor.green)) = false := by
            simp [hc]
          have h2 : ((some c : Option CellColor) == some CellColor.green) = false := by
            simp [hc]
          simp [h1, h2]
      | none =>
        have ha : a ≠ CellColor.green := hab.2 rfl
        cases pool with
        | nil =>
          have hrec := ih as [] htl
          simp [fillRemainingWith, List.zip_cons_cons, List.countP_cons, List.count_cons, hrec, ha]
        | cons p ps =>
          have hrec := ih as ps htl
          simp [fillRemainingWith, List.zip_cons_cons, List.countP_cons, List.count_cons, hrec, ha]

/-! ## Lemmas about `generateSideA` -/

theorem clamp_toNat_le (v : Int) (hi : Nat) : (clamp v 0 (hi : Int)).toNat ≤ hi := by
  have h1 : clamp v 0 (hi : Int) ≤ (hi : Int) :=
    max_le (by exact_mod_cast Nat.zero_le hi) (min_le_left _ _)
  exact Int.toNat_le.mpr h1

theorem clampedBad_le (numBad : Int) (n cg : Nat) (hcg : cg ≤ n) :
    (clamp numBad 0 ((n : Int) - (cg : Int))).toNat ≤ n - cg := by
  have hcast : ((n : Int) - (cg : Int)) = ((n - cg : Nat) : Int) := by
    push_cast [Nat.cast_sub hcg]
    ring
  rw [hcast]
  exact clamp_toNat_le numBad (n - cg)

theorem generateSideA_count_green (numGood numBad : Int) (n : Nat) (s : String) :
    (generateSideA numGood numBad n s).count CellColor.green
      = (clamp numGood 0 (n : Int)).toNat := by
  simp only [generateSideA]
  rw [shuffleArraySeeded_count]
  simp [List.count_append, List.count_replicate]

theorem generateSideA_count_black (numGood numBad : Int) (n : Nat) (s : String) :
    (generateSideA numGood numBad n s).count CellColor.black
      = (clamp numBad 0 ((n : Int) - ((clamp numGood 0 (n : Int)).toNat : Int))).toNat := by
  simp only [generateSideA]
  rw [shuffleArraySeeded_count]
  simp [List.count_append, List.count_replicate]

theorem generateSideA_count_yellow (numGood numBad : Int) (n : Nat) (s : String) :
    (generateSideA numGood numBad n s).count CellColor.yellow
      = n - (clamp numGood 0 (n : Int)).toNat
          - (clamp numBad 0 ((n : Int) - ((clamp numGood 0 (n : Int)).toNat : Int))).toNat := by
  simp only [generateSideA]
  rw [shuffleArraySeeded_count]
  simp [List.count_append, List.count_replicate]

theorem generateSideA_length (numGood numBad : Int) (n : Nat) (s : String) :
    (generateSideA numGood numBad n s).length = n := by
  simp only [generateSideA]
  rw [shuffleArraySeeded_length]
  have h1 := clamp_toNat_le numGood n
  have h2 := clampedBad_le numBad n (clamp numGood 0 (n : Int)).toNat (clamp_toNat_le numGood n)
  simp only [List.length_append, List.length_replicate]
  omega

theorem generateSideA_count_green_le (numGood numBad : Int) (n : Nat) (s : String) :
    (generateSideA numGood numBad n s).count CellColor.green ≤ n := by
  have := List.count_le_length CellColor.green (generateSideA numGood numBad n s)
  rwa [generateSideA_length] at this

/-! ## The single pool draw of the non-pinned GOOD loop -/

theorem takeNonGreen_spec (pool : List CellColor) (hne : pool ≠ []) :
    ∃ c, (takeNonGreen pool).1 = some c ∧
      (∀ p : CellColor → Bool,
        (takeNonGreen pool).2.countP p + (if p c then 1 else 0) = pool.countP p) ∧
      ((takeNonGreen pool).2.length + 1 = pool.length) ∧
      (c = CellColor.green → ∀ a ∈ pool, a = CellColor.green) ∧
      (0 < pool.countP (fun a => a != CellColor.green) → c ≠ CellColor.green) := by
  unfold takeNonGreen
  cases hf : pool.findIdx? (fun c => c != CellColor.green) with
  | none =>
    have hall : ∀ a ∈ pool, a = CellColor.green := by
      intro a ha
      have := List.findIdx?_eq_none_iff.mp hf a ha
      simpa using this
    cases pool with
    | nil => exact absurd rfl hne
    | cons p ps =>
      refine ⟨p, by simp, ?_, by simp, fun _ => hall, ?_⟩
      · intro q
        simp [List.countP_cons]
      · intro hpos
        have hz : (p :: ps).countP (fun a => a != CellColor.green) = 0 := by
          rw [List.countP_eq_zero]
          intro a ha
          simp [hall a ha]
        omega
  | some k =>
    obtain ⟨hk, hpk, _⟩ := List.findIdx?_eq_some_iff_getElem.mp hf
    have hnotg : pool[k] ≠ CellColor.green := by simpa using hpk
    refine ⟨pool[k], by simp [List.getElem?_eq_getElem hk], ?_, ?_, ?_, fun _ => hnotg⟩
    · intro q
      simpa [List.getElem?_eq_getElem hk] using countP_eraseIdx_aux q pool k hk
    · have := List.length_eraseIdx_of_lt hk
      simp only [List.getElem?_eq_getElem hk]
      omega
    · intro hg
      exact absurd hg hnotg

/-! ## The pin loop -/

theorem pinLoop_spec :
    ∀ (pinned : List Nat) (res : List (Option CellColor)) (pool : List CellColor),
      pinned.Nodup →
      (∀ i ∈ pinned, res[i]? = some none) →
      pinned.length ≤ pool.count CellColor.green →
      (pinLoop pinned res pool).1.length = res.length ∧
      (∀ i ∈ pinned, (pinLoop pinned res pool).1[i]? = some (some CellColor.green)) ∧
      (∀ i, i ∉ pinned → (pinLoop pinned res pool).1[i]? = res[i]?) ∧
      (∀ x, (pinLoop pinned res pool).1.count (some x)
          = res.count (some x) + (if x = CellColor.green then pinned.length else 0)) ∧
      ((pinLoop pinned res pool).1.count none + pinned.length = res.count none) ∧
      ((pinLoop pinned res pool).2.count CellColor.green + pinned.length
          = pool.count CellColor.green) ∧
      (∀ x, x ≠ CellColor.green → (pinLoop pinned res pool).2.count x = pool.count x) ∧
      ((pinLoop pinned res pool).2.length + pinned.length = pool.length) := by
  intro pinned
  induction pinned with
  | nil =>
    intro res pool _ _ _
    refine ⟨rfl, by simp, fun i _ => rfl, fun x => by simp [pinLoop], by simp [pinLoop],
      by simp [pinLoop], fun x _ => rfl, by simp [pinLoop]⟩
  | cons i rest ih =>
    intro res pool hnodup hres hcnt
    have hirest : i ∉ rest := by
      have := hnodup
      simp [List.nodup_cons] at this
      exact this.1
    have hrestnodup : rest.Nodup := by
      have := hnodup
      simp [List.nodup_cons] at this
      exact this.2
    obtain ⟨hi, hresi⟩ := List.getElem?_eq_some_iff.mp (hres i (by simp))
    simp only [List.length_cons] at hcnt
    have hgmem : CellColor.green ∈ pool := by
      rw [← List.count_pos_iff]
      omega
    have hres' : ∀ j ∈ rest, (res.set i (some CellColor.green))[j]? = some none := by
      intro j hj
      have hji : i ≠ j := fun h => hirest (h ▸ hj)
      rw [List.getElem?_set_ne hji]
      exact hres j (by simp [hj])
    have hcnt' : rest.length ≤ (pool.erase CellColor.green).count CellColor.green := by
      rw [List.count_erase_self]
      omega
    obtain ⟨q1, q2, q3, q4, q5, q6, q7, q8⟩ :=
      ih (res.set i (some CellColor.green)) (pool.erase CellColor.green) hrestnodup hres' hcnt'
    have hstep : pinLoop (i :: rest) res pool
        = pinLoop rest (res.set i (some CellColor.green)) (pool.erase CellColor.green) := rfl
    rw [hstep]
    have hsetlen : (res.set i (some CellColor.green)).length = res.length := by simp
    refine ⟨by rw [q1, hsetlen], ?_, ?_, ?_, ?_, ?_, ?_, ?_⟩
    · intro j hj
      rcases List.mem_cons.mp hj with hji | hjr
      · subst hji
        rw [q3 j hirest]
        exact List.getElem?_set_self hi
      · exact q2 j hjr
    · intro j hj
      have hji : j ≠ i := fun h => hj (by simp [h])
      have hjr : j ∉ rest := fun h => hj (by simp [h])
      rw [q3 j hjr, List.getElem?_set_ne (Ne.symm hji)]
    · intro x
      have hcs := count_set_aux res i (some CellColor.green) (some x) hi
      rw [hresi] at hcs
      simp only [beq_iff_eq, reduceCtorEq, if_false, Option.some.injEq] at hcs
      rw [q4 x]
      by_cases hx : x = CellColor.green
      · subst hx
        simp at hcs
        simp only [List.length_cons]
        split_ifs
        all_goals omega
      · have hgx : CellColor.green ≠ x := fun h => hx h.symm
        simp [hgx] at hcs
        simp only [List.length_cons]
        split_ifs
        all_goals omega
    · have hcs := count_set_aux res i (some CellColor.green) none hi
      rw [hresi] at hcs
      simp at hcs
      simp only [List.length_cons]
      omega
    · rw [List.count_erase_self] at q6
      simp only [List.length_cons]
      omega
    · intro x hx
      rw [q7 x hx, List.count_erase_of_ne hx]
    · rw [List.length_erase_of_mem hgmem] at q8
      have hpl : 0 < pool.length := List.length_pos_of_mem hgmem
      simp only [List.length_cons]
      omega

/-! ## The non-pinned GOOD loop -/

theorem activeB_iff (pinned : List Nat) (i : Nat) (c : CellColor) :
    activeB pinned (i, c) = true ↔ (c = CellColor.green ∧ i ∉ pinned) := by
  simp [activeB, and_comm]

theorem set_append_length (l1 : List β) (r : β) (rs : List β) (v : β) :
    (l1 ++ r :: rs).set l1.length v = l1 ++ v :: rs := by
  induction l1 with
  | nil => rfl
  | cons a t ih => simp only [List.cons_append, List.length_cons, List.set_cons_succ, ih]

theorem enumList_nil (k : Nat) : enumList k ([] : List α) = [] := rfl

theorem enumList_cons (k : Nat) (x : α) (xs : List α) :
    enumList k (x :: xs) = (k, x) :: enumList (k + 1) xs := rfl

theorem assignGoods_master :
    ∀ (bs : List CellColor) (k : Nat) (pinned : List Nat) (resPre resSuf : List (Option CellColor))
      (pool : List CellColor),
      List.Forall₂ (pinnedPre pinned) (enumList k bs) resSuf →
      resPre.length = k →
      (enumList k bs).countP (activeB pinned) ≤ pool.length →
      ∃ resSuf' pool',
        assignGoods (enumList k bs) pinned (resPre ++ resSuf) pool = (resPre ++ resSuf', pool') ∧
        List.Forall₂ (pinnedPost pinned) (enumList k bs) resSuf' ∧
        (∀ x, resSuf'.count (some x) + pool'.count x = resSuf.count (some x) + pool.count x) ∧
        (resSuf'.count none + (enumList k bs).countP (activeB pinned) = resSuf.count none) ∧
        (pool'.length + (enumList k bs).countP (activeB pinned) = pool.length) ∧
        (resSuf'.count (some CellColor.green)
            + min ((enumList k bs).countP (activeB pinned))
                (pool.countP (fun a => a != CellColor.green))
          = resSuf.count (some CellColor.green) + (enumList k bs).countP (activeB pinned)) := by
  intro bs
  induction bs with
  | nil =>
    intro k pinned resPre resSuf pool hF _ _
    rw [enumList_nil] at hF
    cases hF
    exact ⟨[], pool, rfl, List.Forall₂.nil, fun x => rfl, by simp [enumList_nil],
      by simp [enumList_nil], by simp [enumList_nil]⟩
  | cons c rest ih =>
    intro k pinned resPre resSuf pool hF hlen hpool
    rw [enumList_cons] at hF
    cases hF with
    | cons hhead htail =>
      rename_i r rs
      by_cases hact : c = CellColor.green ∧ k ∉ pinned
      · have hr : r = none := by
          have hp := hhead
          rw [pinnedPre] at hp
          simpa [hact.2] using hp
        subst hr
        have hatrue : activeB pinned (k, c) = true := (activeB_iff pinned k c).mpr hact
        have hcntP : (enumList k (c :: rest)).countP (activeB pinned)
            = 1 + (enumList (k + 1) rest).countP (activeB pinned) := by
          rw [enumList_cons, List.countP_cons, hatrue]
          simp [Nat.add_comm]
        rw [hcntP] at hpool
        have hne : pool ≠ [] := by
          intro h
          subst h
          simp at hpool
        obtain ⟨tc, ht1, ht2, ht3, ht4, ht5⟩ := takeNonGreen_spec pool hne
        have hlen' : (resPre ++ [(takeNonGreen pool).1]).length = k + 1 := by simp [hlen]
        have hpool' : (enumList (k + 1) rest).countP (activeB pinned)
            ≤ (takeNonGreen pool).2.length := by omega
        obtain ⟨suf', pool', e1, e2, e3, e4, e5, e6⟩ :=
          ih (k + 1) pinned (resPre ++ [(takeNonGreen pool).1]) rs (takeNonGreen pool).2
            htail hlen' hpool'
        have hstep : assignGoods (enumList k (c :: rest)) pinned (resPre ++ none :: rs) pool
            = assignGoods (enumList (k + 1) rest) pinned
              ((resPre ++ none :: rs).set k (takeNonGreen pool).1) (takeNonGreen pool).2 := by
          rw [enumList_cons]
          simp [assignGoods, hact]
        have hset : (resPre ++ none :: rs).set k (takeNonGreen pool).1
            = resPre ++ (takeNonGreen pool).1 :: rs := by
          rw [← hlen]
          exact set_append_length resPre none rs (takeNonGreen pool).1
        have hgrp : ∀ z : Option CellColor, ∀ tl : List (Option CellColor),
            resPre ++ z :: tl = (resPre ++ [z]) ++ tl := by
          intro z tl
          simp
        refine ⟨(takeNonGreen pool).1 :: suf', pool', ?_, ?_, ?_, ?_, ?_, ?_⟩
        · rw [hstep, hset, hgrp (takeNonGreen pool).1 rs, e1, ← hgrp (takeNonGreen pool).1 suf']
        · rw [enumList_cons]
          refine List.Forall₂.cons ?_ e2
          refine ⟨fun hk => absurd hk hact.2, fun _ => hact.1, ?_⟩
          intro h
          rw [ht1] at h
          cases h
        · intro x
          have hcp : (takeNonGreen pool).2.count x + (if tc == x then 1 else 0)
              = pool.count x := ht2 (fun a => a == x)
          have he3 := e3 x
          rw [ht1]
          simp only [List.count_cons]
          rw [if_neg (by simp : ¬((((none : Option CellColor)) == some x) = true))]
          by_cases hx : tc = x
          · rw [if_pos (by simp [hx] : (((some tc : Option CellColor)) == some x) = true)]
            rw [if_pos (by simp [hx] : (tc == x) = true)] at hcp
            omega
          · rw [if_neg (by simp [hx] : ¬((((some tc : Option CellColor)) == some x) = true))]
            rw [if_neg (by simp [hx] : ¬((tc == x) = true))] at hcp
            omega
        · rw [hcntP, ht1]
          simp only [List.count_cons]
          rw [if_neg (by simp : ¬((((some tc : Option CellColor)) == none) = true)),
            if_pos (by simp : (((none : Option CellColor)) == none) = true)]
          omega
        · rw [hcntP]
          omega
        · rw [hcntP, ht1]
          have hcpg : (takeNonGreen pool).2.countP (fun a => a != CellColor.green)
              + (if (tc != CellColor.green) = true then 1 else 0)
              = pool.countP (fun a => a != CellColor.green) :=
            ht2 (fun a => a != CellColor.green)
          simp only [List.count_cons]
          rw [if_neg (by simp :
            ¬((((none : Option CellColor)) == some CellColor.green) = true))]
          by_cases htc : tc = CellColor.green
          · have hcn0 : pool.countP (fun a => a != CellColor.green) = 0 := by
              by_contra hpos
              exact (ht5 (Nat.pos_of_ne_zero hpos)) htc
            rw [if_pos (by simp [htc] :
              (((some tc : Option CellColor)) == some CellColor.green) = true)]
            rw [if_neg (by simp [htc] : ¬((tc != CellColor.green) = true))] at hcpg
            omega
          · rw [if_neg (by simp [htc] :
              ¬((((some tc : Option CellColor)) == some CellColor.green) = true))]
            rw [if_pos (by simp [htc] : (tc != CellColor.green) = true)] at hcpg
            omega
      · have hafalse : activeB pinned (k, c) = false := by
          rw [Bool.eq_false_iff]
          intro h
          exact hact ((activeB_iff pinned k c).mp h)
        have hcntP : (enumList k (c :: rest)).countP (activeB pinned)
            = (enumList (k + 1) rest).countP (activeB pinned) := by
          rw [enumList_cons, List.countP_cons, hafalse]
          simp
        rw [hcntP] at hpool
        obtain ⟨suf', pool', e1, e2, e3, e4, e5, e6⟩ :=
          ih (k + 1) pinned (resPre ++ [r]) rs pool htail (by simp [hlen]) hpool
        have hstep : assignGoods (enumList k (c :: rest)) pinned (resPre ++ r :: rs) pool
            = assignGoods (enumList (k + 1) rest) pinned (resPre ++ r :: rs) pool := by
          rw [enumList_cons]
          simp only [assignGoods, if_neg hact]
        have hgrp : ∀ z : Option CellColor, ∀ tl : List (Option CellColor),
            resPre ++ z :: tl = (resPre ++ [z]) ++ tl := by
          intro z tl
          simp
        have hpost : pinnedPost pinned (k, c) r := by
          have hp := hhead
          rw [pinnedPre] at hp
          by_cases hk : k ∈ pinned
          · rw [if_pos hk] at hp
            refine ⟨fun _ => hp, fun _ => hp.1, ?_⟩
            intro h
            rw [hp.2] at h
            cases h
          · rw [if_neg hk] at hp
            have hcg : c ≠ CellColor.green := by
              intro hc
              exact hact ⟨hc, hk⟩
            refine ⟨fun h => absurd h hk, ?_, fun _ => hcg⟩
            intro h
            rw [hp] at h
            cases h
        refine ⟨r :: suf', pool', ?_, ?_, ?_, ?_, ?_, ?_⟩
        · rw [hstep, hgrp r rs, e1, ← hgrp r suf']
        · rw [enumList_cons]
          exact List.Forall₂.cons hpost e2
        · intro x
          have he3 := e3 x
          simp only [List.count_cons]
          omega
        · rw [hcntP]
          simp only [List.count_cons]
          omega
        · rw [hcntP]
          exact e5
        · rw [hcntP]
          simp only [List.count_cons]
          omega

/-! ## The pinned indices -/

theorem enumList_map_fst (l : List α) : ∀ k : Nat,
    (enumList k l).map Prod.fst = List.range' k l.length := by
  induction l with
  | nil => intro k; rfl
  | cons x xs ih => intro k; simp [enumList_cons, List.range'_succ, ih]

theorem greenIndices_length (l : List CellColor) :
    (((enumList 0 l).filter (fun p => p.2 == CellColor.green)).map Prod.fst).length
      = l.count CellColor.green := by
  rw [List.length_map, ← List.countP_eq_length_filter]
  have h1 : l.count CellColor.green
      = ((enumList 0 l).map Prod.snd).countP (fun x => x == CellColor.green) := by
    rw [enumList_map_snd]
    rfl
  rw [h1, List.countP_map]
  rfl

theorem greenIndices_nodup (l : List CellColor) :
    (((enumList 0 l).filter (fun p => p.2 == CellColor.green)).map Prod.fst).Nodup := by
  have hsub : List.Sublist
      (((enumList 0 l).filter (fun p => p.2 == CellColor.green)).map Prod.fst)
      ((enumList 0 l).map Prod.fst) :=
    (List.filter_sublist (enumList 0 l)).map Prod.fst
  have hnodup : ((enumList 0 l).map Prod.fst).Nodup := by
    rw [enumList_map_fst]
    exact List.nodup_range' 0 l.length
  exact hsub.nodup hnodup

theorem greenIndices_mem (l : List CellColor) (i : Nat)
    (h : i ∈ ((enumList 0 l).filter (fun p => p.2 == CellColor.green)).map Prod.fst) :
    l[i]? = some CellColor.green := by
  obtain ⟨pr, hpr, hfst⟩ := List.mem_map.mp h
  obtain ⟨hmem, hsnd⟩ := List.mem_filter.mp hpr
  have hg : pr.2 = CellColor.green := by simpa using hsnd
  have := (mem_enumList l 0 pr hmem).2
  rw [Nat.sub_zero] at this
  rw [← hfst, this, hg]

theorem countP_mem_eq_length (big small : List Nat) (hb : big.Nodup) (hs : small.Nodup)
    (hsub : ∀ x ∈ small, x ∈ big) :
    big.countP (fun i => decide (i ∈ small)) = small.length := by
  rw [List.countP_eq_length_filter]
  have hperm : List.Perm (big.filter (fun i => decide (i ∈ small))) small := by
    rw [List.perm_ext_iff_of_nodup (hb.filter _) hs]
    intro a
    simp only [List.mem_filter, decide_eq_true_eq]
    exact ⟨fun h => h.2, fun h => ⟨hsub a h, h⟩⟩
  exact hperm.length_eq

theorem pinnedIndicesOf_mem (numGood numBad : Int) (n : Nat) (seed : String) :
    ∀ i ∈ pinnedIndicesOf numGood numBad n seed,
      (generateSideA numGood numBad n seed)[i]? = some CellColor.green := by
  intro i hi
  rw [pinnedIndicesOf] at hi
  have h1 : i ∈ shuffleArraySeeded
      (((enumList 0 (generateSideA numGood numBad n seed)).filter
        (fun p => p.2 == CellColor.green)).map Prod.fst)
      (seedToRng (seed ++ "|pins")) :=
    (List.take_sublist _ _).subset hi
  have h2 := (shuffleArraySeeded_mem _ _ _).mp h1
  exact greenIndices_mem _ i h2

theorem pinnedIndicesOf_nodup (numGood numBad : Int) (n : Nat) (seed : String) :
    (pinnedIndicesOf numGood numBad n seed).Nodup := by
  rw [pinnedIndicesOf]
  exact (List.take_sublist _ _).nodup
    (shuffleArraySeeded_nodup _ _ (greenIndices_nodup _))

theorem pinnedIndicesOf_length (numGood numBad : Int) (n : Nat) (seed : String) :
    (pinnedIndicesOf numGood numBad n seed).length
      = min 3 ((generateSideA numGood numBad n seed).count CellColor.green) := by
  rw [pinnedIndicesOf]
  rw [List.length_take, shuffleArraySeeded_length, greenIndices_length]
  omega

/-! ## The full side-B pipeline -/

theorem mem_enumList_of (l : List α) :
    ∀ (j k : Nat) (x : α), l[j]? = some x → (k + j, x) ∈ enumList k l := by
  induction l with
  | nil => intro j k x h; simp at h
  | cons a t ih =>
    intro j k x h
    cases j with
    | zero =>
      have : a = x := by simpa using h
      subst this
      rw [enumList_cons]
      simp
    | succ j =>
      have h' : t[j]? = some x := by simpa using h
      have := ih j (k + 1) x h'
      rw [enumList_cons]
      have harith : k + (j + 1) = k + 1 + j := by omega
      rw [harith]
      exact List.mem_cons_of_mem _ this

theorem greenIndices_mem_of (l : List CellColor) (i : Nat)
    (h : l[i]? = some CellColor.green) :
    i ∈ ((enumList 0 l).filter (fun p => p.2 == CellColor.green)).map Prod.fst := by
  have hmem : ((0 : Nat) + i, CellColor.green) ∈ enumList 0 l := mem_enumList_of l i 0 _ h
  rw [Nat.zero_add] at hmem
  apply List.mem_map.mpr
  refine ⟨(i, CellColor.green), ?_, rfl⟩
  apply List.mem_filter.mpr
  exact ⟨hmem, by simp⟩

theorem sideBChain_spec (base : List CellColor) (pinned : List Nat) (n : Nat) (st1 st2 : Nat)
    (hblen : base.length = n)
    (hpnodup : pinned.Nodup)
    (hpsub : ∀ i ∈ pinned, base[i]? = some CellColor.green)
    (hplen : pinned.length = min 3 (base.count CellColor.green)) :
    (assignGoods (enumList 0 base) pinned (pinLoop pinned (List.replicate n none) base).1
        (shuffleArraySeeded (pinLoop pinned (List.replicate n none) base).2 st1)).1.length = n ∧
    (assignGoods (enumList 0 base) pinned (pinLoop pinned (List.replicate n none) base).1
        (shuffleArraySeeded (pinLoop pinned (List.replicate n none) base).2 st1)).1.count none
      + base.count CellColor.green = n ∧
    (shuffleArraySeeded
        (assignGoods (enumList 0 base) pinned (pinLoop pinned (List.replicate n none) base).1
          (shuffleArraySeeded (pinLoop pinned (List.replicate n none) base).2 st1)).2
        st2).length + base.count CellColor.green = n ∧
    (∀ x, (assignGoods (enumList 0 base) pinned (pinLoop pinned (List.replicate n none) base).1
          (shuffleArraySeeded (pinLoop pinned (List.replicate n none) base).2 st1)).1.count (some x)
        + (shuffleArraySeeded
            (assignGoods (enumList 0 base) pinned (pinLoop pinned (List.replicate n none) base).1
              (shuffleArraySeeded (pinLoop pinned (List.replicate n none) base).2 st1)).2
            st2).count x
        = base.count x) ∧
    ((assignGoods (enumList 0 base) pinned (pinLoop pinned (List.replicate n none) base).1
        (shuffleArraySeeded (pinLoop pinned (List.replicate n none) base).2 st1)).1.count
          (some CellColor.green)
      + min (base.count CellColor.green - min 3 (base.count CellColor.green))
          (n - base.count CellColor.green)
      = base.count CellColor.green) ∧
    List.Forall₂ (pinnedPost pinned) (enumList 0 base)
      (assignGoods (enumList 0 base) pinned (pinLoop pinned (List.replicate n none) base).1
        (shuffleArraySeeded (pinLoop pinned (List.replicate n none) base).2 st1)).1 := by
  have hgA_le : base.count CellColor.green ≤ n := by
    have := List.count_le_length CellColor.green base
    omega
  have hpins_le : pinned.length ≤ base.count CellColor.green := by
    rw [hplen]
    omega
  have hrepl : ∀ i ∈ pinned, (List.replicate n (none : Option CellColor))[i]? = some none := by
    intro i hi
    obtain ⟨hlt, _⟩ := List.getElem?_eq_some_iff.mp (hpsub i hi)
    rw [hblen] at hlt
    rw [List.getElem?_replicate, if_pos hlt]
  obtain ⟨q1, q2, q3, q4, q5, q6, q7, q8⟩ :=
    pinLoop_spec pinned (List.replicate n none) base hpnodup hrepl hpins_le
  have hres1len : (pinLoop pinned (List.replicate n none) base).1.length = n := by
    rw [q1, List.length_replicate]
  have hF : List.Forall₂ (pinnedPre pinned) (enumList 0 base)
      (pinLoop pinned (List.replicate n none) base).1 := by
    apply forall2_enum_intro (pinnedPre pinned) base 0
      (pinLoop pinned (List.replicate n none) base).1 (by rw [hres1len, hblen])
    intro j hj hr
    rw [pinnedPre]
    simp only [Nat.zero_add]
    by_cases hjp : j ∈ pinned
    · rw [if_pos hjp]
      obtain ⟨hlt, hbj⟩ := List.getElem?_eq_some_iff.mp (hpsub j hjp)
      obtain ⟨hlt2, hrj⟩ := List.getElem?_eq_some_iff.mp (q2 j hjp)
      exact ⟨hbj, hrj⟩
    · rw [if_neg hjp]
      have hq3 := q3 j hjp
      have hjn : j < n := by rw [← hblen]; exact hj
      rw [List.getElem?_replicate, if_pos hjn] at hq3
      exact (List.getElem?_eq_some_iff.mp hq3).2
  have hpinsub : ∀ i ∈ pinned,
      i ∈ ((enumList 0 base).filter (fun p => p.2 == CellColor.green)).map Prod.fst := by
    intro i hi
    exact greenIndices_mem_of base i (hpsub i hi)
  have hactB : (activeB pinned) = fun p : Nat × CellColor =>
      (!(decide (p.1 ∈ pinned))) && (p.2 == CellColor.green) := rfl
  have hm : (enumList 0 base).countP (activeB pinned) + pinned.length
      = base.count CellColor.green := by
    rw [hactB, ← List.countP_filter]
    have hmap : (((enumList 0 base).filter (fun p => p.2 == CellColor.green)).map
        Prod.fst).countP (fun i => !(decide (i ∈ pinned)))
        = ((enumList 0 base).filter (fun p => p.2 == CellColor.green)).countP
            (fun p => !(decide (p.1 ∈ pinned))) := by
      rw [List.countP_map]
      rfl
    rw [← hmap]
    have hsplit := countP_not_aux (fun i => decide (i ∈ pinned))
      (((enumList 0 base).filter (fun p => p.2 == CellColor.green)).map Prod.fst)
    have hcm := countP_mem_eq_length
      (((enumList 0 base).filter (fun p => p.2 == CellColor.green)).map Prod.fst) pinned
      (greenIndices_nodup base) hpnodup hpinsub
    have hglen := greenIndices_length base
    rw [hcm, hglen] at hsplit
    omega
  have hpool1len : (pinLoop pinned (List.replicate n none) base).2.length + pinned.length
      = n := by
    have hq8 := q8
    rw [hblen] at hq8
    exact hq8
  have hpool2len : (shuffleArraySeeded (pinLoop pinned (List.replicate n none) base).2
      st1).length = (pinLoop pinned (List.replicate n none) base).2.length :=
    shuffleArraySeeded_length _ _
  have hm_le : (enumList 0 base).countP (activeB pinned)
      ≤ (shuffleArraySeeded (pinLoop pinned (List.replicate n none) base).2 st1).length := by
    omega
  obtain ⟨suf', pool', e1, e2, e3, e4, e5, e6⟩ :=
    assignGoods_master base 0 pinned [] (pinLoop pinned (List.replicate n none) base).1
      (shuffleArraySeeded (pinLoop pinned (List.replicate n none) base).2 st1) hF rfl hm_le
  rw [List.nil_append] at e1
  have hsuflen : suf'.length = n := by
    have hlen2 := e2.length_eq
    rw [enumList_length, hblen] at hlen2
    omega
  have hzero : ∀ x : CellColor,
      (List.replicate n (none : Option CellColor)).count (some x) = 0 := by
    intro x
    rw [List.count_replicate]
    simp
  have hq5 := q5
  rw [List.count_replicate_self] at hq5
  have hc2 : suf'.count none + base.count CellColor.green = n := by
    omega
  have hc3 : (shuffleArraySeeded pool' st2).length + base.count CellColor.green = n := by
    rw [shuffleArraySeeded_length]
    omega
  have hc4 : ∀ x, suf'.count (some x) + (shuffleArraySeeded pool' st2).count x
      = base.count x := by
    intro x
    rw [shuffleArraySeeded_count]
    have he3 := e3 x
    rw [shuffleArraySeeded_count] at he3
    have hq4 := q4 x
    rw [hzero x] at hq4
    by_cases hx : x = CellColor.green
    · subst hx
      rw [if_pos rfl] at hq4
      omega
    · rw [if_neg hx] at hq4
      have hq7 := q7 x hx
      omega
  have hcn2 : (shuffleArraySeeded (pinLoop pinned (List.replicate n none) base).2
        st1).countP (fun a => a != CellColor.green)
      + base.count CellColor.green = n := by
    rw [shuffleArraySeeded_countP]
    have hsplit2 := countP_not_aux (fun a : CellColor => a == CellColor.green)
      (pinLoop pinned (List.replicate n none) base).2
    have hbne : (fun a : CellColor => a != CellColor.green)
        = fun a => !(a == CellColor.green) := rfl
    rw [hbne]
    have hcg : (pinLoop pinned (List.replicate n none) base).2.countP
        (fun a : CellColor => a == CellColor.green)
        = (pinLoop pinned (List.replicate n none) base).2.count CellColor.green := rfl
    rw [hcg] at hsplit2
    omega
  have hq4g := q4 CellColor.green
  rw [hzero CellColor.green, if_pos rfl] at hq4g
  have hc5 : suf'.count (some CellColor.green)
      + min (base.count CellColor.green - min 3 (base.count CellColor.green))
          (n - base.count CellColor.green)
      = base.count CellColor.green := by
    omega
  refine ⟨?_, ?_, ?_, ?_, ?_, ?_⟩
  · rw [e1]
    exact hsuflen
  · rw [e1]
    exact hc2
  · rw [e1]
    exact hc3
  · intro x
    rw [e1]
    exact hc4 x
  · rw [e1]
    exact hc5
  · rw [e1]
    exact e2

theorem sideBParts_spec (numGood numBad : Int) (n : Nat) (seed : String) :
    (sideBParts numGood numBad n seed).1.length = n ∧
    (sideBParts numGood numBad n seed).1.count none
      + (generateSideA numGood numBad n seed).count CellColor.green = n ∧
    (sideBParts numGood numBad n seed).2.length
      + (generateSideA numGood numBad n seed).count CellColor.green = n ∧
    (∀ x, (sideBParts numGood numBad n seed).1.count (some x)
        + (sideBParts numGood numBad n seed).2.count x
      = (generateSideA numGood numBad n seed).count x) ∧
    ((sideBParts numGood numBad n seed).1.count (some CellColor.green)
      + min ((generateSideA numGood numBad n seed).count CellColor.green
            - min 3 ((generateSideA numGood numBad n seed).count CellColor.green))
          (n - (generateSideA numGood numBad n seed).count CellColor.green)
      = (generateSideA numGood numBad n seed).count CellColor.green) ∧
    List.Forall₂ (pinnedPost (pinnedIndicesOf numGood numBad n seed))
      (enumList 0 (generateSideA numGood numBad n seed))
      (sideBParts numGood numBad n seed).1 :=
  sideBChain_spec (generateSideA numGood numBad n seed) (pinnedIndicesOf numGood numBad n seed)
    n (seedToRng (seed ++ "|pool1")) (seedToRng (seed ++ "|pool2"))
    (generateSideA_length numGood numBad n seed)
    (pinnedIndicesOf_nodup numGood numBad n seed)
    (pinnedIndicesOf_mem numGood numBad n seed)
    (pinnedIndicesOf_length numGood numBad n seed)

theorem sideBParts_balanced (numGood numBad : Int) (n : Nat) (seed : String) :
    (sideBParts numGood numBad n seed).1.count none
      = (sideBParts numGood numBad n seed).2.length := by
  obtain ⟨c1, c2, c3, c4, c5, c6⟩ := sideBParts_spec numGood numBad n seed
  omega

theorem generateSideB_count (numGood numBad : Int) (n : Nat) (seed : String) (x : CellColor) :
    (generateSideB numGood numBad n seed).count x
      = (generateSideA numGood numBad n seed).count x := by
  obtain ⟨c1, c2, c3, c4, c5, c6⟩ := sideBParts_spec numGood numBad n seed
  have hbal := sideBParts_balanced numGood numBad n seed
  have hfill := fillRemainingWith_count CellColor.yellow (sideBParts numGood numBad n seed).1
    (sideBParts numGood numBad n seed).2 hbal x
  have hb : generateSideB numGood numBad n seed
      = fillRemainingWith CellColor.yellow (sideBParts numGood numBad n seed).1
        (sideBParts numGood numBad n seed).2 := rfl
  rw [hb, hfill]
  exact c4 x

theorem generateSideB_length (numGood numBad : Int) (n : Nat) (seed : String) :
    (generateSideB numGood numBad n seed).length = n := by
  obtain ⟨c1, _, _, _, _, _⟩ := sideBParts_spec numGood numBad n seed
  have hb : generateSideB numGood numBad n seed
      = fillRemainingWith CellColor.yellow (sideBParts numGood numBad n seed).1
        (sideBParts numGood numBad n seed).2 := rfl
  rw [hb, fillRemainingWith_length]
  exact c1

theorem overlapCount_eq_parts (numGood numBad : Int) (n : Nat) (seed : String) :
    overlapCount (generateSideA numGood numBad n seed) (generateSideB numGood numBad n seed)
      = (sideBParts numGood numBad n seed).1.count (some CellColor.green) := by
  obtain ⟨c1, c2, c3, c4, c5, c6⟩ := sideBParts_spec numGood numBad n seed
  have hrel : List.Forall₂ (fun r a => (r = some CellColor.green → a = CellColor.green) ∧
        (r = none → a ≠ CellColor.green))
      (sideBParts numGood numBad n seed).1 (generateSideA numGood numBad n seed) := by
    apply forall2_flip_enum (pinnedPost (pinnedIndicesOf numGood numBad n seed))
      (fun r a => (r = some CellColor.green → a = CellColor.green) ∧
        (r = none → a ≠ CellColor.green)) ?_
      (generateSideA numGood numBad n seed) 0 (sideBParts numGood numBad n seed).1 c6
    intro p x hP
    exact ⟨hP.2.1, hP.2.2⟩
  have hb : generateSideB numGood numBad n seed
      = fillRemainingWith CellColor.yellow (sideBParts numGood numBad n seed).1
        (sideBParts numGood numBad n seed).2 := rfl
  rw [overlapCount, hb]
  exact fillRemainingWith_overlap CellColor.yellow (sideBParts numGood numBad n seed).1
    (generateSideA numGood numBad n seed) (sideBParts numGood numBad n seed).2 hrel

theorem overlapCount_formula (numGood numBad : Int) (n : Nat) (seed : String) :
    overlapCount (generateSideA numGood numBad n seed) (generateSideB numGood numBad n seed)
      = max (min 3 ((generateSideA numGood numBad n seed).count CellColor.green))
          (2 * (generateSideA numGood numBad n seed).count CellColor.green - n) := by
  obtain ⟨c1, c2, c3, c4, c5, c6⟩ := sideBParts_spec numGood numBad n seed
  have hle := generateSideA_count_green_le numGood numBad n seed
  rw [overlapCount_eq_parts]
  omega

/-! ## The configuration digest -/

theorem digestLetter_bounds (v : Nat) : 'A' ≤ digestLetter v ∧ digestLetter v ≤ 'Z' := by
  have h : v % 26 < 26 := Nat.mod_lt _ (by omega)
  unfold digestLetter
  set m := v % 26 with hm
  interval_cases m <;> exact ⟨by decide, by decide⟩

theorem digest_all_letters (a b c : Nat) :
    ([digestLetter a, digestLetter b, digestLetter c].all
      (fun ch => decide ('A' ≤ ch) && decide (ch ≤ 'Z'))) = true := by
  simp only [List.all_cons, List.all_nil, Bool.and_eq_true, decide_eq_true_eq]
  exact ⟨⟨(digestLetter_bounds a).1, (digestLetter_bounds a).2⟩,
    ⟨(digestLetter_bounds b).1, (digestLetter_bounds b).2⟩,
    ⟨⟨(digestLetter_bounds c).1, (digestLetter_bounds c).2⟩, trivial⟩⟩

/-! ## The claims -/

set_option maxRecDepth 20000

/-- Claim C1 (corrected, counterexample): with the code's fixed overlap
target `pinsToSelect = min 3 numGoodOnSideA`, the number of positions
GOOD on both sides does **not** always equal
`min 3 numGoodOnSideA`: at `numGood = totalCells = 4`, `numBad = 0`,
side B is forced all-GOOD and the overlap is `4 ≠ min 3 4`. -/
theorem claim1_counterexample :
    overlapCount (generateSideA 4 0 4 "s") (generateSideB 4 0 4 "s")
      ≠ min 3 ((generateSideA 4 0 4 "s").count CellColor.green) := by
  decide

/-- Claim C1 (amended): `generateSideB` has no configurable `overlapGreens`
parameter; its overlap target is the constant `3` (`pinsToSelect`).  For
every `numGood`, `numBad`, `totalCells` and `seed`, the number of
positions GOOD on both side A and side B equals
`max (min 3 numGoodOnSideA) (2·numGoodOnSideA − totalCells)`; this is
`min 3 numGoodOnSideA` exactly when `2·numGoodOnSideA ≤ totalCells + 3`,
and exceeds it when the pool is GOOD-saturated. -/
theorem claim1_overlap (numGood numBad : Int) (n : Nat) (seed : String) :
    overlapCount (generateSideA numGood numBad n seed) (generateSideB numGood numBad n seed)
      = max (min 3 ((generateSideA numGood numBad n seed).count CellColor.green))
          (2 * (generateSideA numGood numBad n seed).count CellColor.green - n) :=
  overlapCount_formula numGood numBad n seed

/-- Claim C2: for every `numGood`, `numBad`, `totalCells` and `seed`, the
side-B grid has exactly the same number of GOOD, BAD and NEUTRAL cells
as the side-A grid. -/
theorem claim2_count_conservation (numGood numBad : Int) (n : Nat) (seed : String)
    (c : CellColor) :
    (generateSideB numGood numBad n seed).count c
      = (generateSideA numGood numBad n seed).count c :=
  generateSideB_count numGood numBad n seed c

/-- Claim C3: for all integer `numGood`, `numBad`, every `totalCells ≥ 0`
and every seed, `generateSideA` returns a sequence of length
`totalCells` with exactly `clamp(numGood, 0, totalCells)` GOOD cells,
exactly `clamp(numBad, 0, totalCells − clampedGood)` BAD cells, and
NEUTRAL in all remaining cells. -/
theorem claim3_sideA_spec (numGood numBad : Int) (n : Nat) (seed : String) :
    (generateSideA numGood numBad n seed).length = n ∧
    (generateSideA numGood numBad n seed).count CellColor.green
      = (clamp numGood 0 (n : Int)).toNat ∧
    (generateSideA numGood numBad n seed).count CellColor.black
      = (clamp numBad 0 ((n : Int) - ((clamp numGood 0 (n : Int)).toNat : Int))).toNat ∧
    (generateSideA numGood numBad n seed).count CellColor.yellow
      = n - (clamp numGood 0 (n : Int)).toNat
          - (clamp numBad 0 ((n : Int) - ((clamp numGood 0 (n : Int)).toNat : Int))).toNat :=
  ⟨generateSideA_length numGood numBad n seed,
    generateSideA_count_green numGood numBad n seed,
    generateSideA_count_black numGood numBad n seed,
    generateSideA_count_yellow numGood numBad n seed⟩

/-- Claim C4: `generateGrid` is deterministic — it is a pure function of
`(numGood, numBad, totalCells, seed, side)`, so two invocations with
identical arguments return identical cell sequences.  The embedding is a
mathematical function with no other inputs: the source derives all
randomness from the seed via `seedToRng`, which this file models
state-explicitly. -/
theorem claim4_deterministic (numGood numBad : Int) (n : Nat) (seed : String) (side : Side) :
    generateGrid numGood numBad n seed side = generateGrid numGood numBad n seed side := rfl

/-- Claim C5 (spec-modelled; `configDigest` is absent from the sources): the
digest of a configuration (excluding side) is a pure function producing
a 3-character label whose characters all lie in `'A'..'Z'`, obtained by
hashing `gridSize|numGood|numBad|overlapGreens|seed` with the FNV-1a
string hash and extracting letters by repeated mod-26 / div-26 steps;
identical configurations always yield the same digest. -/
theorem claim5_configDigest (c : DigestConfig) :
    (configDigest c).length = 3 ∧
    ((configDigest c).toList.all (fun ch => decide ('A' ≤ ch) && decide (ch ≤ 'Z'))) = true ∧
    configDigest c = configDigest c :=
  ⟨rfl, digest_all_letters _ _ _, rfl⟩

/-- Claim C6 (corrected, counterexample): `generateGrid` with seed `""`
does **not** return the same grid as with seed `"default"`: the
generator appends a side suffix (`"|A"`, `"|pins"`, …) to the seed
before hashing, so the empty-seed fallback inside `seedToRng` never
fires for the suffixed strings (`"" ++ "|A" = "|A" ≠ ""`). -/
theorem claim6_counterexample :
    generateGrid 9 3 25 "" Side.A ≠ generateGrid 9 3 25 "default" Side.A := by
  decide

/-- Claim C6 (amended): the empty-seed substitution lives in `seedToRng`:
`seedToRng` maps the empty string to the same PRNG state as the literal
string `"default"`.  It is the UI caller (line 232) that applies
`config.seed || "default"` before calling `generateGrid`; `generateGrid`
itself distinguishes `""` from `"default"`. -/
theorem claim6_amended : seedToRng "" = seedToRng "default" := rfl

/-- Claim C7: in `generateSideB`, when the final fill loop starts, the
pool size equals the number of still-unfilled (`none`) positions, so
every pool draw succeeds and the defensive NEUTRAL default is never
used: filling with any other default `d` yields the same grid. -/
theorem claim7_pool_exact (numGood numBad : Int) (n : Nat) (seed : String) :
    (sideBParts numGood numBad n seed).1.count none
      = (sideBParts numGood numBad n seed).2.length ∧
    ∀ d : CellColor,
      fillRemainingWith d (sideBParts numGood numBad n seed).1
          (sideBParts numGood numBad n seed).2
        = fillRemaining (sideBParts numGood numBad n seed).1
            (sideBParts numGood numBad n seed).2 :=
  ⟨sideBParts_balanced numGood numBad n seed,
    fun d => fillRemainingWith_default_irrelevant d _ _
      (sideBParts_balanced numGood numBad n seed)⟩

/-- Claim C8: in `generateSideB`, every side-A GOOD position that is not
pinned is assigned via `takeNonGreen`, which takes the first non-GOOD
entry of the current pool (scanning from the front) and falls back to
the pool's first entry when no non-GOOD entry exists; consequently such
a position receives GOOD only when the pool holds only GOOD entries at
that step. -/
theorem claim8_takeNonGreen (i : Nat) (rest : List (Nat × CellColor)) (pinned : List Nat)
    (res : List (Option CellColor)) (pool : List CellColor) (hpin : i ∉ pinned) :
    assignGoods ((i, CellColor.green) :: rest) pinned res pool
      = assignGoods rest pinned (res.set i (takeNonGreen pool).1) (takeNonGreen pool).2 ∧
    (takeNonGreen pool).1 = (match pool.findIdx? (fun c => c != CellColor.green) with
      | some k => pool[k]?
      | none => pool.head?) ∧
    ((∀ c ∈ pool, c = CellColor.green) ∨ (takeNonGreen pool).1 ≠ some CellColor.green) := by
  refine ⟨by simp [assignGoods, hpin], ?_, ?_⟩
  · unfold takeNonGreen
    cases hf : pool.findIdx? (fun c => c != CellColor.green) with
    | some k => rfl
    | none => exact (List.head?_eq_getElem? pool).symm
  · cases hf : pool.findIdx? (fun c => c != CellColor.green) with
    | some k =>
      right
      obtain ⟨hk, hpk, _⟩ := List.findIdx?_eq_some_iff_getElem.mp hf
      have hnotg : pool[k] ≠ CellColor.green := by simpa using hpk
      unfold takeNonGreen
      rw [hf]
      show pool[k]? ≠ some CellColor.green
      rw [List.getElem?_eq_getElem hk]
      intro hcontra
      exact hnotg (by simpa using hcontra)
    | none =>
      left
      intro a ha
      have := List.findIdx?_eq_none_iff.mp hf a ha
      simpa using this

/-- Claim C8 witness: a concrete instance of the non-pinned GOOD draw. -/
theorem claim8_witness :
    ((0 : Nat) ∉ ([] : List Nat)) ∧
    (assignGoods [((0 : Nat), CellColor.green)] [] [none] [CellColor.black]
        = assignGoods [] [] ([none].set 0 (takeNonGreen [CellColor.black]).1)
            (takeNonGreen [CellColor.black]).2 ∧
      (takeNonGreen [CellColor.black]).1
        = (match ([CellColor.black] : List CellColor).findIdx?
              (fun c => c != CellColor.green) with
            | some k => ([CellColor.black] : List CellColor)[k]?
            | none => ([CellColor.black] : List CellColor).head?) ∧
      ((∀ c ∈ ([CellColor.black] : List CellColor), c = CellColor.green) ∨
        (takeNonGreen [CellColor.black]).1 ≠ some CellColor.green)) :=
  ⟨by decide, claim8_takeNonGreen 0 [] [] [none] [CellColor.black] (by decide)⟩

/-- Claim C9: for every `totalCells ≥ 0` and every seed, when
`numGood = totalCells` and `numBad = 0`, every cell of the grid returned
by `generateGrid` is GOOD — on side A and on side B alike. -/
theorem claim9_all_good (n : Nat) (seed : String) (side : Side) :
    generateGrid (n : Int) 0 n seed side = List.replicate n CellColor.green := by
  have hclamp : clamp (n : Int) 0 (n : Int) = (n : Int) := by
    simp [clamp]
  have hAg : (generateSideA (n : Int) 0 n seed).count CellColor.green = n := by
    rw [generateSideA_count_green, hclamp]
    exact Int.toNat_natCast n
  have hA : generateSideA (n : Int) 0 n seed = List.replicate n CellColor.green := by
    refine List.eq_replicate_iff.mpr ⟨generateSideA_length (n : Int) 0 n seed, ?_⟩
    intro b hb
    have hcl : (generateSideA (n : Int) 0 n seed).count CellColor.green
        = (generateSideA (n : Int) 0 n seed).length := by
      rw [hAg, generateSideA_length]
    exact (List.count_eq_length.mp hcl b hb).symm
  have hB : generateSideB (n : Int) 0 n seed = List.replicate n CellColor.green := by
    refine List.eq_replicate_iff.mpr ⟨generateSideB_length (n : Int) 0 n seed, ?_⟩
    intro b hb
    have hcl : (generateSideB (n : Int) 0 n seed).count CellColor.green
        = (generateSideB (n : Int) 0 n seed).length := by
      rw [generateSideB_count, hAg, generateSideB_length]
    exact (List.count_eq_length.mp hcl b hb).symm
  cases side with
  | A => exact hA
  | B => exact hB

/-- Claim C10: every pinned position selected in `generateSideB` holds
GOOD in the side-B grid, and the number of positions GOOD on both sides
is at least `min 3 numGoodOnSideA`. -/
theorem claim10_pinned_good (numGood numBad : Int) (n : Nat) (seed : String) (i : Nat)
    (h : i ∈ pinnedIndicesOf numGood numBad n seed) :
    (generateSideB numGood numBad n seed)[i]? = some CellColor.green ∧
    min 3 ((generateSideA numGood numBad n seed).count CellColor.green)
      ≤ overlapCount (generateSideA numGood numBad n seed)
          (generateSideB numGood numBad n seed) := by
  constructor
  · have hAi := pinnedIndicesOf_mem numGood numBad n seed i h
    obtain ⟨hlt, hAv⟩ := List.getElem?_eq_some_iff.mp hAi
    have hin : i < n := by
      rw [← generateSideA_length numGood numBad n seed]
      exact hlt
    obtain ⟨c1, c2, c3, c4, c5, c6⟩ := sideBParts_spec numGood numBad n seed
    have hrlen : i < (sideBParts numGood numBad n seed).1.length := by
      rw [c1]
      exact hin
    have helim := forall2_enum_elim (pinnedPost (pinnedIndicesOf numGood numBad n seed))
      (generateSideA numGood numBad n seed) 0 (sideBParts numGood numBad n seed).1 c6 i hlt hrlen
    rw [Nat.zero_add] at helim
    have hres : (sideBParts numGood numBad n seed).1[i] = some CellColor.green := (helim.1 h).2
    have hres2 : (sideBParts numGood numBad n seed).1[i]? = some (some CellColor.green) :=
      List.getElem?_eq_some_iff.mpr ⟨hrlen, hres⟩
    exact fillRemainingWith_getElem CellColor.yellow (sideBParts numGood numBad n seed).1
      (sideBParts numGood numBad n seed).2 i CellColor.green hres2
  · rw [overlapCount_formula]
    omega

/-- Claim C10 witness: position 1 is pinned for `(9, 3, 25, "abc")` and is
GOOD on side B. -/
theorem claim10_witness :
    ((1 : Nat) ∈ pinnedIndicesOf 9 3 25 "abc") ∧
    ((generateSideB 9 3 25 "abc")[1]? = some CellColor.green ∧
      min 3 ((generateSideA 9 3 25 "abc").count CellColor.green)
        ≤ overlapCount (generateSideA 9 3 25 "abc") (generateSideB 9 3 25 "abc")) :=
  ⟨by decide, claim10_pinned_good 9 3 25 "abc" 1 (by decide)⟩

end Codenames
